import Mathlib

/-!
Verification of the drizzle-duckdb core runtime layer: the bounded
connection pool (src/pool.ts), the chunked streaming executor
(src/client.ts) and the session / transaction coordinator
(src/bin/duckdb-introspect.ts).  The TypeScript sources are shallowly
embedded as executable Lean functions; JavaScript numbers used as
timestamps and counters are modelled as `Int`, machine state mutated by
the event loop is threaded explicitly, and `async` control flow is
modelled by splitting each operation at its suspension points.
-/

namespace DrizzleDuckDB

/-! ## Streaming executor: chunking (src/client.ts, executeInBatches /
executeInBatchesRaw)

Both generators buffer rows one at a time and yield the buffer as soon
as it reaches `rowsPerChunk` rows; after the engine's row iterator is
exhausted a non-empty remainder buffer is yielded as the final chunk. -/

/-- `options.rowsPerChunk && options.rowsPerChunk > 0 ? options.rowsPerChunk : 100_000`
from executeInBatches / executeInBatchesRaw (`0` is falsy in JS, so it
also falls back to the default). -/
def resolveRowsPerChunk (rowsPerChunk : Option Int) : Nat :=
  match rowsPerChunk with
  | some p => if 0 < p then p.toNat else 100000
  | none => 100000

/-- One iteration of the inner row loop:
`buffer.push(row); if (buffer.length >= rowsPerChunk) { yield buffer; buffer = []; }`.
The state is (chunks yielded so far, current buffer). -/
def pushRow (P : Nat) (st : List (List α) × List α) (row : α) :
    List (List α) × List α :=
  let buf := st.2 ++ [row]
  if P ≤ buf.length then (st.1 ++ [buf], []) else (st.1, buf)

/-- The two nested `for` loops of executeInBatches / executeInBatchesRaw,
fed with the chunks produced by the engine's `yieldRowsJs()` iterator. -/
def feedChunks (P : Nat) (st : List (List α) × List α)
    (chunks : List (List α)) : List (List α) × List α :=
  chunks.foldl (fun acc chunk => chunk.foldl (pushRow P) acc) st

/-- The full chunk sequence yielded by executeInBatches /
executeInBatchesRaw when the engine produces `chunks` and the stream is
consumed to exhaustion: the buffer loop followed by the trailing
`if (buffer.length > 0) { yield buffer; }`. -/
def yieldedChunks (P : Nat) (chunks : List (List α)) : List (List α) :=
  let st := feedChunks P ([], []) chunks
  if 0 < st.2.length then st.1 ++ [st.2] else st.1


theorem resolveRowsPerChunk_pos (o : Option Int) : 0 < resolveRowsPerChunk o := by
  unfold resolveRowsPerChunk
  match o with
  | none => decide
  | some p =>
    by_cases h : 0 < p
    · simp only [if_pos h]
      omega
    · simp only [if_neg h]
      decide

theorem pushRow_spec (P : Nat) (acc : List (List α)) (buf : List α) (row : α)
    (hacc : ∀ c ∈ acc, c.length = P) (hbuf : buf.length < P) :
    (∀ c ∈ (pushRow P (acc, buf) row).1, c.length = P) ∧
    (pushRow P (acc, buf) row).2.length < P ∧
    (pushRow P (acc, buf) row).1.flatten ++ (pushRow P (acc, buf) row).2
      = acc.flatten ++ (buf ++ [row]) := by
  have hlen : (buf ++ [row]).length = buf.length + 1 := by simp
  by_cases h : P ≤ (buf ++ [row]).length
  · have hbP : (buf ++ [row]).length = P := by omega
    simp only [pushRow, if_pos h]
    refine ⟨?_, by simp only [List.length_nil]; omega, by simp⟩
    intro c hc
    rcases List.mem_append.1 hc with hc | hc
    · exact hacc c hc
    · simp only [List.mem_singleton] at hc
      subst hc
      exact hbP
  · simp only [pushRow, if_neg h]
    exact ⟨hacc, by omega, by simp⟩

theorem foldl_pushRow_spec (P : Nat) (rows : List α) :
    ∀ acc buf, (∀ c ∈ acc, c.length = P) → buf.length < P →
    (∀ c ∈ (rows.foldl (pushRow P) (acc, buf)).1, c.length = P) ∧
    (rows.foldl (pushRow P) (acc, buf)).2.length < P ∧
    (rows.foldl (pushRow P) (acc, buf)).1.flatten ++ (rows.foldl (pushRow P) (acc, buf)).2
      = acc.flatten ++ buf ++ rows := by
  induction rows with
  | nil =>
    intro acc buf hacc hbuf
    exact ⟨hacc, hbuf, by simp⟩
  | cons r rs ih =>
    intro acc buf hacc hbuf
    obtain ⟨h1, h2, h3⟩ := pushRow_spec P acc buf r hacc hbuf
    rcases hq : pushRow P (acc, buf) r with ⟨acc', buf'⟩
    rw [hq] at h1 h2 h3
    obtain ⟨g1, g2, g3⟩ := ih acc' buf' h1 h2
    refine ⟨?_, ?_, ?_⟩
    · simpa [List.foldl_cons, hq] using g1
    · simpa [List.foldl_cons, hq] using g2
    · simp only [List.foldl_cons, hq]
      rw [g3, h3]
      simp

theorem feedChunks_eq_foldl_join (P : Nat) (st : List (List α) × List α)
    (chunks : List (List α)) :
    feedChunks P st chunks = (chunks.flatten).foldl (pushRow P) st := by
  induction chunks generalizing st with
  | nil => rfl
  | cons c cs ih =>
    simp only [feedChunks, List.foldl_cons, List.flatten_cons, List.foldl_append]
    exact ih (c.foldl (pushRow P) st)

theorem join_length_const (P : Nat) (l : List (List α)) (h : ∀ c ∈ l, c.length = P) :
    l.flatten.length = l.length * P := by
  induction l with
  | nil => simp
  | cons c cs ih =>
    simp only [List.flatten_cons, List.length_append, List.length_cons]
    rw [h c (by simp), ih (fun x hx => h x (by simp [hx]))]
    ring

theorem ceil_div_eq (P a b : Nat) (hP : 0 < P) (hb : b < P) :
    (a * P + b + P - 1) / P = if b = 0 then a else a + 1 := by
  have hrw : a * P + b + P - 1 = P * a + (b + P - 1) := by ring_nf; omega
  rw [hrw, Nat.mul_add_div hP]
  rcases Nat.eq_zero_or_pos b with h0 | h0
  · subst h0
    rw [if_pos rfl, Nat.div_eq_of_lt (by omega)]
    omega
  · rw [if_neg (by omega)]
    have hrw2 : b + P - 1 = (b - 1) + P := by omega
    rw [hrw2, Nat.add_div_right _ hP, Nat.div_eq_of_lt (by omega)]

/-- C9: for a result set of `M` rows streamed with `rowsPerChunk = P`
(default 100000 when unspecified or non-positive, per
`resolveRowsPerChunk`), executeInBatches / executeInBatchesRaw yield
exactly `⌈M/P⌉` chunks, the chunk sizes sum to `M`, every chunk except
possibly the last has exactly `P` rows, and the last chunk has
`M mod P` rows (or `P` when `P` divides `M`). -/
theorem executeInBatches_chunk_sizes (α : Type) (rowsPerChunk : Option Int)
    (chunks : List (List α)) :
    (yieldedChunks (resolveRowsPerChunk rowsPerChunk) chunks).length
        = (chunks.flatten.length + resolveRowsPerChunk rowsPerChunk - 1)
            / resolveRowsPerChunk rowsPerChunk ∧
    ((yieldedChunks (resolveRowsPerChunk rowsPerChunk) chunks).map List.length).sum
        = chunks.flatten.length ∧
    (∀ c ∈ (yieldedChunks (resolveRowsPerChunk rowsPerChunk) chunks).dropLast,
        c.length = resolveRowsPerChunk rowsPerChunk) ∧
    (0 < chunks.flatten.length →
      ∃ last, (yieldedChunks (resolveRowsPerChunk rowsPerChunk) chunks).getLast? = some last ∧
        last.length =
          if chunks.flatten.length % resolveRowsPerChunk rowsPerChunk = 0
          then resolveRowsPerChunk rowsPerChunk
          else chunks.flatten.length % resolveRowsPerChunk rowsPerChunk) := by
  set P := resolveRowsPerChunk rowsPerChunk with hPdef
  have hP : 0 < P := resolveRowsPerChunk_pos rowsPerChunk
  have hfeed := feedChunks_eq_foldl_join P (([], []) : List (List α) × List α) chunks
  obtain ⟨hall, hbuf, hjoin⟩ :=
    foldl_pushRow_spec P chunks.flatten ([] : List (List α)) ([] : List α)
      (by intro c hc; cases hc) (by simpa using hP)
  rcases hst : chunks.flatten.foldl (pushRow P) ([], []) with ⟨acc, buf⟩
  rw [hst] at hall hbuf hjoin
  simp only at hall hbuf hjoin
  simp only [List.flatten_nil, List.append_nil, List.nil_append] at hjoin
  have hylen : acc.flatten.length = acc.length * P := join_length_const P acc hall
  have hM : chunks.flatten.length = acc.length * P + buf.length := by
    have := congrArg List.length hjoin
    simpa [hylen] using this.symm
  have hys : yieldedChunks P chunks = if 0 < buf.length then acc ++ [buf] else acc := by
    simp only [yieldedChunks, hfeed, hst]
  by_cases hb : buf.length = 0
  · have hbuf0 : buf = [] := List.length_eq_zero.1 hb
    rw [hbuf0] at hjoin
    simp only [List.append_nil] at hjoin
    have hysacc : yieldedChunks P chunks = acc := by
      rw [hys, hbuf0]
      simp
    refine ⟨?_, ?_, ?_, ?_⟩
    · rw [hysacc, hM, hb, ceil_div_eq P acc.length 0 hP hP]
      simp
    · rw [hysacc, ← List.length_flatten, hjoin]
    · rw [hysacc]
      intro c hc
      exact hall c (List.dropLast_subset acc hc)
    · intro hMpos
      have haccne : acc ≠ [] := by
        intro h0
        have hz : chunks.flatten.length = 0 := by
          rw [← hjoin, h0]
          simp
        omega
      refine ⟨acc.getLast haccne, ?_, ?_⟩
      · rw [hysacc]
        exact List.getLast?_eq_getLast acc haccne
      · have hmem : acc.getLast haccne ∈ acc := List.getLast_mem haccne
        have hmod : chunks.flatten.length % P = 0 := by
          rw [hM, hb]
          simp [Nat.mul_mod_left]
        rw [hmod, if_pos rfl]
        exact hall _ hmem
  · have hbpos : 0 < buf.length := Nat.pos_of_ne_zero hb
    have hysconc : yieldedChunks P chunks = acc ++ [buf] := by
      rw [hys, if_pos hbpos]
    have hmod : chunks.flatten.length % P = buf.length := by
      rw [hM, Nat.mul_comm, Nat.mul_add_mod]
      exact Nat.mod_eq_of_lt hbuf
    refine ⟨?_, ?_, ?_, ?_⟩
    · rw [hysconc, hM, ceil_div_eq P acc.length buf.length hP hbuf, if_neg hb]
      simp
    · rw [hysconc, ← List.length_flatten, List.flatten_append]
      simp only [List.flatten_cons, List.flatten_nil, List.append_nil]
      rw [hjoin]
    · rw [hysconc, List.dropLast_concat]
      exact hall
    · intro _
      refine ⟨buf, ?_, ?_⟩
      · rw [hysconc, List.getLast?_concat]
      · rw [hmod, if_neg hb]

/-- Witness for `executeInBatches_chunk_sizes` at a concrete stream:
5 rows in engine chunks of 3 and 2, rowsPerChunk 2. -/
theorem executeInBatches_chunk_sizes_witness :
    ∃ last,
      (yieldedChunks (resolveRowsPerChunk (some 2)) [[1, 2, 3], [4, 5]]).getLast? = some last ∧
      last.length =
        if ([[1, 2, 3], [4, 5]] : List (List Nat)).flatten.length % resolveRowsPerChunk (some 2) = 0
        then resolveRowsPerChunk (some 2)
        else ([[1, 2, 3], [4, 5]] : List (List Nat)).flatten.length % resolveRowsPerChunk (some 2) :=
  (executeInBatches_chunk_sizes Nat (some 2) [[1, 2, 3], [4, 5]]).2.2.2 (by decide)

/-! ## Connection pool (src/pool.ts, createDuckDBConnectionPool)

Connections are identified by `Nat` ids; timestamps (`Date.now()`) are
`Int` (JS numbers).  `total` is `Int` because the source mixes plain
`total -= 1` with `Math.max(0, total - 1)` and the former can drive it
negative.  The `WeakMap` metadata side table is an association list and
the `destroyed` field logs every `closeClientConnection(conn)` call.
`async` suspension points split `acquire` into a synchronous part
(`acquireSync`) and the completion of `DuckDBConnection.create`
(`createDone`); interleavings are event traces (`runPool`). -/

structure Meta where
  createdAt : Int
  lastUsedAt : Int
deriving DecidableEq

structure PooledConnection where
  connection : Nat
  createdAt : Int
  lastUsedAt : Int
deriving DecidableEq

structure PoolState where
  idle : List PooledConnection
  waiting : List Nat
  total : Int
  closed : Bool
  pendingAcquires : Int
  metadata : List (Nat × Meta)
  destroyed : List Nat
deriving DecidableEq

structure PoolOptions where
  /-- `options.size && options.size > 0 ? options.size : 4` — always positive. -/
  size : Nat
  /-- `options.acquireTimeout ?? 30_000`. -/
  acquireTimeout : Nat
  /-- `options.maxWaitingRequests ?? 100`. -/
  maxWaitingRequests : Nat
  /-- `options.maxLifetimeMs` (optional, no default; any JS number). -/
  maxLifetimeMs : Option Int
  /-- `options.idleTimeoutMs` (optional, no default). -/
  idleTimeoutMs : Option Int
deriving DecidableEq

/-- Behaviour of the external world: whether `closeClientConnection`
on a given connection rejects (its `connection.close()` may throw; the
prepared-statement cache cleanup inside it swallows its own errors). -/
structure PoolEnv where
  closeThrows : Nat → Bool

def emptyPoolState : PoolState :=
  { idle := [], waiting := [], total := 0, closed := false,
    pendingAcquires := 0, metadata := [], destroyed := [] }

def mdGet (md : List (Nat × Meta)) (c : Nat) : Option Meta :=
  (md.find? (fun p => p.1 == c)).map (fun p => p.2)

def mdDelete (md : List (Nat × Meta)) (c : Nat) : List (Nat × Meta) :=
  md.filter (fun p => p.1 != c)

def mdSet (md : List (Nat × Meta)) (c : Nat) (m : Meta) : List (Nat × Meta) :=
  (c, m) :: mdDelete md c

/-- `closeClientConnection(connection)` (src/client.ts): clears the
prepared-statement cache (its per-entry `destroySync` failures are
swallowed by a `try/catch`) and then closes the connection, which may
itself reject.  Returns the updated state and whether the call threw. -/
def closeConn (env : PoolEnv) (st : PoolState) (c : Nat) : PoolState × Bool :=
  ({ st with destroyed := st.destroyed ++ [c] }, env.closeThrows c)

/-- `shouldRecycle` (src/pool.ts): age out by max lifetime or idle time. -/
def shouldRecycle (opts : PoolOptions) (conn : PooledConnection) (now : Int) : Bool :=
  (match opts.maxLifetimeMs with
   | some m => now - conn.createdAt ≥ m
   | none => false) ||
  (match opts.idleTimeoutMs with
   | some t => now - conn.lastUsedAt ≥ t
   | none => false)

inductive ScanResult where
  | found (c : Nat)
  | exhausted
  | destroyThrew
deriving DecidableEq

/-- The `while (idle.length > 0)` loop of `acquire()`: pop the
most-recently-returned connection; recycle (destroy, decrement `total`,
drop metadata) and keep scanning if it is stale, otherwise refresh its
`lastUsedAt` and return it.  The scanned-off idle stack is the explicit
list argument; the returned state's `idle` is the unscanned remainder. -/
def acquireScan (opts : PoolOptions) (env : PoolEnv) (now : Int) :
    List PooledConnection → PoolState → ScanResult × PoolState
  | [], st => (.exhausted, { st with idle := [] })
  | pooled :: rest, st =>
    if shouldRecycle opts pooled now then
      let (st1, threw) := closeConn env st pooled.connection
      if threw then
        (.destroyThrew, { st1 with idle := rest })
      else
        acquireScan opts env now rest
          { st1 with total := max 0 (st1.total - 1),
                     metadata := mdDelete st1.metadata pooled.connection }
    else
      (.found pooled.connection,
       { st with idle := rest,
                 metadata := mdSet st.metadata pooled.connection
                   ⟨pooled.createdAt, now⟩ })

inductive AcquireStep where
  | threwClosed
  | threwDestroy
  | gotIdle (c : Nat)
  | startCreation
  | threwQueueFull
  | enqueued
deriving DecidableEq

/-- The synchronous prefix of `acquire()` (src/pool.ts lines 100-175):
closed check, idle scan, optimistic slot reservation
(`pendingAcquires += 1; total += 1`) when below capacity, queue-limit
check, or enqueueing of a waiter (`wid` stands for its timeout id). -/
def acquireSync (opts : PoolOptions) (env : PoolEnv) (st : PoolState)
    (now : Int) (wid : Nat) : AcquireStep × PoolState :=
  if st.closed then (.threwClosed, st)
  else
    match acquireScan opts env now st.idle st with
    | (.found c, st1) => (.gotIdle c, st1)
    | (.destroyThrew, st1) => (.threwDestroy, st1)
    | (.exhausted, st1) =>
      if st1.total < (opts.size : Int) then
        (.startCreation,
         { st1 with pendingAcquires := st1.pendingAcquires + 1,
                    total := st1.total + 1 })
      else if opts.maxWaitingRequests ≤ st1.waiting.length then
        (.threwQueueFull, st1)
      else
        (.enqueued, { st1 with waiting := st1.waiting ++ [wid] })

inductive CreateResult where
  | ok
  | createThrew
  | setupThrew
deriving DecidableEq

inductive CreateOutcome where
  | created (c : Nat)
  | threwError
  | threwClosed
deriving DecidableEq

/-- Completion of the `DuckDBConnection.create` / `setup` awaits started
by `acquireSync`'s `startCreation`.  On failure the reserved slot is
released in the `catch` (`total -= 1`); a connection created after the
pool closed is destroyed and, because the `throw` at line 139 is also
caught by the outer `catch`, `total` is decremented twice; on success
the metadata table records `createdAt = lastUsedAt = now`. -/
def createDone (env : PoolEnv) (st : PoolState) (now : Int) (newConn : Nat) :
    CreateResult → CreateOutcome × PoolState
  | .createThrew =>
    (.threwError, { st with total := st.total - 1,
                            pendingAcquires := st.pendingAcquires - 1 })
  | .setupThrew =>
    let (st1, _) := closeConn env st newConn
    (.threwError, { st1 with total := st1.total - 1,
                             pendingAcquires := st1.pendingAcquires - 1 })
  | .ok =>
    if st.closed then
      let (st1, threw) := closeConn env st newConn
      if threw then
        (.threwError, { st1 with total := st1.total - 1,
                                 pendingAcquires := st1.pendingAcquires - 1 })
      else
        (.threwClosed, { st1 with total := st1.total - 2,
                                  pendingAcquires := st1.pendingAcquires - 1 })
    else
      (.created newConn,
       { st with metadata := mdSet st.metadata newConn ⟨now, now⟩,
                 pendingAcquires := st.pendingAcquires - 1 })

inductive ReleaseOutcome where
  | waiterRejectedClosed (w : Nat)
  | waiterRecursiveAcquire (w : Nat)
  | waiterResolved (w : Nat) (c : Nat)
  | destroyedPoolClosed
  | destroyedExpired
  | pushedIdle
  | threwDestroy
deriving DecidableEq

/-- `release(connection)` (src/pool.ts lines 177-251) up to its first
suspension inside the expired-with-waiter path (the recursive `acquire()`
there is a separate event; the outcome `waiterRecursiveAcquire` records
that the waiter is to be satisfied by that recursive call instead of by
the returned connection).  Metadata missing from the side table is
fabricated as `{createdAt: now, lastUsedAt: now}`. -/
def releaseStep (opts : PoolOptions) (env : PoolEnv) (st : PoolState)
    (c : Nat) (now : Int) : ReleaseOutcome × PoolState :=
  match st.waiting with
  | w :: ws =>
    let st0 := { st with waiting := ws }
    let meta := (mdGet st0.metadata c).getD ⟨now, now⟩
    let expired : Bool :=
      match opts.maxLifetimeMs with
      | some m => decide (now - meta.createdAt ≥ m)
      | none => false
    if st0.closed then
      let (st1, threw) := closeConn env st0 c
      if threw then (.threwDestroy, st1)
      else
        (.waiterRejectedClosed w,
         { st1 with total := max 0 (st1.total - 1),
                    metadata := mdDelete st1.metadata c })
    else if expired then
      let (st1, threw) := closeConn env st0 c
      if threw then (.threwDestroy, st1)
      else
        (.waiterRecursiveAcquire w,
         { st1 with total := max 0 (st1.total - 1),
                    metadata := mdDelete st1.metadata c })
    else
      (.waiterResolved w c,
       { st0 with metadata := mdSet st0.metadata c ⟨meta.createdAt, now⟩ })
  | [] =>
    if st.closed then
      let (st1, threw) := closeConn env st c
      if threw then (.threwDestroy, st1)
      else
        (.destroyedPoolClosed,
         { st1 with metadata := mdDelete st1.metadata c,
                    total := max 0 (st1.total - 1) })
    else
      let meta := (mdGet st.metadata c).getD ⟨now, now⟩
      let st1 := { st with metadata := mdSet st.metadata c ⟨meta.createdAt, now⟩ }
      let expired : Bool :=
        match opts.maxLifetimeMs with
        | some m => decide (now - meta.createdAt ≥ m)
        | none => false
      if expired then
        let (st2, threw) := closeConn env st1 c
        if threw then (.threwDestroy, st2)
        else
          (.destroyedExpired,
           { st2 with total := st2.total - 1,
                      metadata := mdDelete st2.metadata c })
      else
        (.pushedIdle,
         { st1 with idle := ⟨c, meta.createdAt, now⟩ :: st1.idle })

/-- The timeout handler installed by `acquire()` when it enqueues a
waiter: removes the waiter from the queue and rejects its promise with
the acquire-timeout error. -/
def timeoutFire (opts : PoolOptions) (st : PoolState) (wid : Nat) :
    String × PoolState :=
  ("DuckDB connection pool acquire timeout after " ++
     toString opts.acquireTimeout ++ "ms",
   { st with waiting := st.waiting.erase wid })

/-- `close()` (src/pool.ts lines 253-277): set `closed`, reject all
waiters, destroy all idle connections (all attempted via `allSettled`),
adjust `total` and drop their metadata.  The bounded grace-period wait
for pending acquires changes no pool state. -/
def closePool (st : PoolState) : PoolState :=
  { st with closed := true,
            waiting := [],
            idle := [],
            destroyed := st.destroyed ++ st.idle.map (fun p => p.connection),
            total := max 0 (st.total - st.idle.length),
            metadata := st.idle.foldl (fun md p => mdDelete md p.connection) st.metadata }

inductive PoolEvent where
  | acquireEv (now : Int) (wid : Nat)
  | createDoneEv (now : Int) (newConn : Nat) (res : CreateResult)
  | releaseEv (c : Nat) (now : Int)
  | timeoutEv (wid : Nat)
  | closeEv
deriving DecidableEq

/-- One event-loop turn of the pool.  The recursive `acquire()` issued
inside `release()` for an expired connection shows up as a subsequent
`acquireEv`/`createDoneEv` in the trace. -/
def poolStep (opts : PoolOptions) (env : PoolEnv) (st : PoolState) :
    PoolEvent → PoolState
  | .acquireEv now wid => (acquireSync opts env st now wid).2
  | .createDoneEv now c res => (createDone env st now c res).2
  | .releaseEv c now => (releaseStep opts env st c now).2
  | .timeoutEv wid => (timeoutFire opts st wid).2
  | .closeEv => closePool st

/-- A pool run: any interleaving of operations from the fresh pool. -/
def runPool (opts : PoolOptions) (env : PoolEnv) (evs : List PoolEvent) : PoolState :=
  evs.foldl (poolStep opts env) emptyPoolState

theorem mdGet_set_self (md : List (Nat × Meta)) (c : Nat) (m : Meta) :
    mdGet (mdSet md c m) c = some m := by
  simp [mdGet, mdSet, List.find?_cons]

theorem mdGet_delete_self (md : List (Nat × Meta)) (c : Nat) :
    mdGet (mdDelete md c) c = none := by
  have h : (mdDelete md c).find? (fun p => p.1 == c) = none := by
    rw [List.find?_eq_none]
    intro p hp
    have := List.of_mem_filter hp
    simpa using this
  simp [mdGet, h]

theorem acquireScan_total_le (opts : PoolOptions) (env : PoolEnv) (now : Int)
    (B : Int) (hB : 0 ≤ B) :
    ∀ (idle : List PooledConnection) (st : PoolState), st.total ≤ B →
      (acquireScan opts env now idle st).2.total ≤ B := by
  intro idle
  induction idle with
  | nil =>
    intro st h
    simpa [acquireScan] using h
  | cons p rest ih =>
    intro st h
    unfold acquireScan
    by_cases hr : shouldRecycle opts p now
    · simp only [hr, if_true, closeConn]
      by_cases ht : env.closeThrows p.connection
      · simpa [ht] using h
      · simp only [ht, if_false]
        exact ih _ (by simp; omega)
    · simpa [hr] using h

theorem acquireScan_waiting (opts : PoolOptions) (env : PoolEnv) (now : Int) :
    ∀ (idle : List PooledConnection) (st : PoolState),
      (acquireScan opts env now idle st).2.waiting = st.waiting := by
  intro idle
  induction idle with
  | nil =>
    intro st
    simp [acquireScan]
  | cons p rest ih =>
    intro st
    unfold acquireScan
    by_cases hr : shouldRecycle opts p now
    · simp only [hr, if_true, closeConn]
      by_cases ht : env.closeThrows p.connection
      · simp [ht]
      · simp only [ht, if_false]
        exact ih _
    · simp [hr]

theorem acquireSync_total_le (opts : PoolOptions) (env : PoolEnv) (st : PoolState)
    (now : Int) (wid : Nat) (h : st.total ≤ (opts.size : Int)) :
    (acquireSync opts env st now wid).2.total ≤ (opts.size : Int) := by
  unfold acquireSync
  by_cases hc : st.closed
  · simpa [hc] using h
  · simp only [hc, Bool.false_eq_true, if_false]
    rcases hscan : acquireScan opts env now st.idle st with ⟨res, st1⟩
    have h1 : st1.total ≤ (opts.size : Int) := by
      have := acquireScan_total_le opts env now (opts.size : Int)
        (by positivity) st.idle st h
      rw [hscan] at this
      exact this
    cases res with
    | found c => exact h1
    | destroyThrew => exact h1
    | exhausted =>
      by_cases hlt : st1.total < (opts.size : Int)
      · simp only [hlt, if_true]
        omega
      · simp only [hlt, if_false]
        by_cases hq : opts.maxWaitingRequests ≤ st1.waiting.length
        · simpa [hq] using h1
        · simpa [hq] using h1

theorem createDone_total_le (env : PoolEnv) (st : PoolState) (now : Int)
    (newConn : Nat) (res : CreateResult) :
    (createDone env st now newConn res).2.total ≤ st.total := by
  cases res with
  | createThrew => simp [createDone]
  | setupThrew => simp [createDone, closeConn]
  | ok =>
    unfold createDone
    by_cases hc : st.closed
    · simp only [hc, if_true, closeConn]
      by_cases ht : env.closeThrows newConn
      · simp [ht]
      · simp [ht]
    · simp [hc]

theorem releaseStep_total_le (opts : PoolOptions) (env : PoolEnv) (st : PoolState)
    (c : Nat) (now : Int) (B : Int) (hB : 0 ≤ B) (h : st.total ≤ B) :
    (releaseStep opts env st c now).2.total ≤ B := by
  unfold releaseStep
  rcases hw : st.waiting with _ | ⟨w, ws⟩
  · by_cases hc : st.closed
    · simp only [hc, if_true, closeConn]
      by_cases ht : env.closeThrows c
      · simpa [ht] using h
      · simp only [ht, if_false]
        simp
        omega
    · simp only [hc, Bool.false_eq_true, if_false]
      split
      · simp only [closeConn]
        by_cases ht : env.closeThrows c
        · simpa [ht] using h
        · simp only [ht, if_false]
          simp
          omega
      · simpa using h
  · simp only []
    by_cases hc : st.closed
    · simp only [hc, if_true, closeConn]
      by_cases ht : env.closeThrows c
      · simpa [ht] using h
      · simp only [ht, if_false]
        simp
        omega
    · simp only [hc, Bool.false_eq_true, if_false]
      split
      · simp only [closeConn]
        by_cases ht : env.closeThrows c
        · simpa [ht] using h
        · simp only [ht, if_false]
          simp
          omega
      · simpa using h

theorem closePool_total_le (st : PoolState) (B : Int) (hB : 0 ≤ B)
    (h : st.total ≤ B) : (closePool st).total ≤ B := by
  simp only [closePool]
  simp
  omega

theorem poolStep_total_le (opts : PoolOptions) (env : PoolEnv) (st : PoolState)
    (ev : PoolEvent) (h : st.total ≤ (opts.size : Int)) :
    (poolStep opts env st ev).total ≤ (opts.size : Int) := by
  cases ev with
  | acquireEv now wid => exact acquireSync_total_le opts env st now wid h
  | createDoneEv now c res =>
    exact le_trans (createDone_total_le env st now c res) h
  | releaseEv c now =>
    exact releaseStep_total_le opts env st c now _ (by positivity) h
  | timeoutEv wid => simpa [timeoutFire] using h
  | closeEv => exact closePool_total_le st _ (by positivity) h

theorem runPool_total_le (opts : PoolOptions) (env : PoolEnv)
    (evs : List PoolEvent) :
    (runPool opts env evs).total ≤ (opts.size : Int) := by
  suffices h : ∀ st : PoolState, st.total ≤ (opts.size : Int) →
      (evs.foldl (poolStep opts env) st).total ≤ (opts.size : Int) by
    exact h emptyPoolState (by simp only [emptyPoolState]; positivity)
  induction evs with
  | nil => intro st h; simpa using h
  | cons e es ih =>
    intro st h
    simp only [List.foldl_cons]
    exact ih _ (poolStep_total_le opts env st e h)

/-- C2: for every pool and every interleaving of pool operations the
tracked connection count `total` never exceeds `size` (the slot for an
in-flight creation is reserved by incrementing `total` before the
creation starts, so the bound holds even during the pending-creation
interval); and an `acquire()` arriving when all `size` connections are
outstanding and none is idle does not create a new connection: it is
appended to the waiter queue (provided the queue is below
`maxWaitingRequests`), leaving `total` unchanged, and if its timer fires
it is removed from the queue and fails with the acquire-timeout error. -/
theorem pool_capacity_invariant (opts : PoolOptions) (env : PoolEnv) :
    (∀ evs : List PoolEvent, (runPool opts env evs).total ≤ (opts.size : Int)) ∧
    (∀ (st : PoolState) (now : Int) (wid : Nat),
      st.closed = false → st.idle = [] → st.total = (opts.size : Int) →
      st.waiting.length < opts.maxWaitingRequests → wid ∉ st.waiting →
      acquireSync opts env st now wid
        = (.enqueued, { st with waiting := st.waiting ++ [wid] }) ∧
      timeoutFire opts { st with waiting := st.waiting ++ [wid] } wid
        = ("DuckDB connection pool acquire timeout after " ++
             toString opts.acquireTimeout ++ "ms", st)) := by
  refine ⟨runPool_total_le opts env, ?_⟩
  intro st now wid hclosed hidle htotal hq hww
  constructor
  · unfold acquireSync
    rw [hclosed]
    simp only [Bool.false_eq_true, if_false]
    have hscan : acquireScan opts env now st.idle st = (.exhausted, st) := by
      rw [hidle]
      unfold acquireScan
      cases st
      simp_all
    rw [hscan]
    simp only [htotal, lt_irrefl, if_false]
    rw [if_neg (by omega), hclosed]
  · unfold timeoutFire
    have herase : (st.waiting ++ [wid]).erase wid = st.waiting := by
      rw [List.erase_append_right _ hww]
      simp
    simp [herase]

/-- Witness for `pool_capacity_invariant`: a pool of size 1 with its one
connection checked out enqueues the second acquire as a waiter. -/
theorem pool_capacity_invariant_witness :
    acquireSync ⟨1, 30000, 100, none, none⟩ ⟨fun _ => false⟩
        { emptyPoolState with total := 1 } 0 5
      = (.enqueued, { emptyPoolState with total := 1, waiting := [5] }) := by
  have h := ((pool_capacity_invariant ⟨1, 30000, 100, none, none⟩
      ⟨fun _ => false⟩).2 { emptyPoolState with total := 1 } 0 5
      rfl rfl (by decide) (by decide) (by decide)).1
  simpa [emptyPoolState] using h

theorem acquireScan_found_fresh (opts : PoolOptions) (env : PoolEnv)
    (now : Int) (m : Int) (hm : opts.maxLifetimeMs = some m) :
    ∀ (idle : List PooledConnection) (st : PoolState) (c : Nat) (st1 : PoolState),
      acquireScan opts env now idle st = (.found c, st1) →
      ∃ cAt, mdGet st1.metadata c = some ⟨cAt, now⟩ ∧ now - cAt < m := by
  intro idle
  induction idle with
  | nil =>
    intro st c st1 h
    simp [acquireScan] at h
  | cons p rest ih =>
    intro st c st1 h
    unfold acquireScan at h
    by_cases hr : shouldRecycle opts p now
    · simp only [hr, if_true, closeConn] at h
      by_cases ht : env.closeThrows p.connection
      · simp [ht] at h
      · simp only [ht, if_false] at h
        exact ih _ c st1 h
    · simp only [hr, Bool.false_eq_true, if_false, Prod.mk.injEq] at h
      obtain ⟨hc, hst⟩ := h
      cases hc
      refine ⟨p.createdAt, ?_, ?_⟩
      · rw [← hst]
        exact mdGet_set_self _ _ _
      · unfold shouldRecycle at hr
        rw [hm] at hr
        simp only [Bool.or_eq_true, decide_eq_true_eq] at hr
        push_neg at hr
        omega

theorem acquireScan_recycles_prefix (opts : PoolOptions) (env : PoolEnv)
    (now : Int) :
    ∀ (pre : List PooledConnection) (p : PooledConnection)
      (rest : List PooledConnection) (st : PoolState),
      (∀ q ∈ pre, shouldRecycle opts q now = true ∧
        env.closeThrows q.connection = false) →
      shouldRecycle opts p now = false →
      ∃ st1, acquireScan opts env now (pre ++ p :: rest) st
          = (.found p.connection, st1) ∧
        st1.destroyed = st.destroyed ++ pre.map (fun q => q.connection) ∧
        st1.idle = rest := by
  intro pre
  induction pre with
  | nil =>
    intro p rest st _ hp
    have hstep : acquireScan opts env now ([] ++ p :: rest) st
        = (.found p.connection,
           { st with idle := rest,
                     metadata := mdSet st.metadata p.connection
                       ⟨p.createdAt, now⟩ }) := by
      simp only [List.nil_append]
      unfold acquireScan
      simp [hp]
    exact ⟨_, hstep, by simp, rfl⟩
  | cons q qs ih =>
    intro p rest st hpre hp
    obtain ⟨hq, hqt⟩ := hpre q (by simp)
    have hrest : ∀ r ∈ qs, shouldRecycle opts r now = true ∧
        env.closeThrows r.connection = false :=
      fun r hr => hpre r (by simp [hr])
    obtain ⟨st1, hrec, hdest, hidle⟩ := ih p rest
      { st with destroyed := st.destroyed ++ [q.connection],
                total := max 0 (st.total - 1),
                metadata := mdDelete st.metadata q.connection } hrest hp
    refine ⟨st1, ?_, ?_, hidle⟩
    · simp only [List.cons_append]
      unfold acquireScan
      simp only [hq, if_true, closeConn, hqt, if_false]
      exact hrec
    · rw [hdest]
      simp

/-- C6: with `maxLifetimeMs = m` configured, a connection whose age has
reached `m` is never handed to a caller.
(1) Whenever the idle scan of `acquire()` returns a connection, its
metadata shows age strictly below `m`.
(2) The scan destroys every stale idle connection it pops and keeps
scanning until it finds a usable one.
(3) `release()` with a queued waiter and an expired returned connection
destroys that connection, decrements `total`, drops its metadata and
satisfies the waiter through a recursive `acquire()` instead of handing
the expired connection over.
(4) A freshly created connection enters the metadata table with
`createdAt = lastUsedAt = now`.  Together with (1) this means no waiter
ever receives an expired handle. -/
theorem maxLifetime_never_handed_out (opts : PoolOptions) (env : PoolEnv)
    (m : Int) (hm : opts.maxLifetimeMs = some m) :
    (∀ (idle : List PooledConnection) (st : PoolState) (c : Nat)
       (st1 : PoolState) (now : Int),
       acquireScan opts env now idle st = (.found c, st1) →
       ∃ cAt, mdGet st1.metadata c = some ⟨cAt, now⟩ ∧ now - cAt < m) ∧
    (∀ (pre : List PooledConnection) (p : PooledConnection)
       (rest : List PooledConnection) (st : PoolState) (now : Int),
       (∀ q ∈ pre, shouldRecycle opts q now = true ∧
         env.closeThrows q.connection = false) →
       shouldRecycle opts p now = false →
       ∃ st1, acquireScan opts env now (pre ++ p :: rest) st
           = (.found p.connection, st1) ∧
         st1.destroyed = st.destroyed ++ pre.map (fun q => q.connection) ∧
         st1.idle = rest) ∧
    (∀ (st : PoolState) (c : Nat) (now : Int) (w : Nat) (ws : List Nat)
       (meta : Meta),
       st.waiting = w :: ws → st.closed = false →
       mdGet st.metadata c = some meta → now - meta.createdAt ≥ m →
       env.closeThrows c = false →
       ∃ st1, releaseStep opts env st c now = (.waiterRecursiveAcquire w, st1) ∧
         st1.destroyed = st.destroyed ++ [c] ∧
         st1.total = max 0 (st.total - 1) ∧
         mdGet st1.metadata c = none) ∧
    (∀ (st : PoolState) (now : Int) (nc : Nat), st.closed = false →
       ∃ st1, createDone env st now nc .ok = (.created nc, st1) ∧
         mdGet st1.metadata nc = some ⟨now, now⟩) := by
  refine ⟨?_, ?_, ?_, ?_⟩
  · intro idle st c st1 now
    exact acquireScan_found_fresh opts env now m hm idle st c st1
  · intro pre p rest st now
    exact acquireScan_recycles_prefix opts env now pre p rest st
  · intro st c now w ws meta hw hclosed hmeta hexp hnothrow
    unfold releaseStep
    rw [hw]
    simp only [hmeta, Option.getD_some, hclosed, Bool.false_eq_true, if_false,
      hm, closeConn, hnothrow, decide_eq_true hexp, if_true]
    exact ⟨_, rfl, by simp, rfl, mdGet_delete_self _ _⟩
  · intro st now nc hclosed
    unfold createDone
    simp only [hclosed, Bool.false_eq_true, if_false]
    exact ⟨_, rfl, mdGet_set_self _ _ _⟩

/-- Witness for `maxLifetime_never_handed_out`: a pool with
`maxLifetimeMs = 10` releasing a connection created at time 0 to a
waiter at time 50 destroys it and re-acquires for the waiter. -/
theorem maxLifetime_never_handed_out_witness :
    ∃ st1,
      releaseStep ⟨4, 30000, 100, some 10, none⟩ ⟨fun _ => false⟩
          { emptyPoolState with waiting := [7], total := 1,
                                metadata := [(3, ⟨0, 0⟩)] } 3 50
        = (.waiterRecursiveAcquire 7, st1) ∧
      st1.destroyed = [] ++ [3] ∧
      st1.total = max 0 (1 - 1) ∧
      mdGet st1.metadata 3 = none := by
  have h := (maxLifetime_never_handed_out ⟨4, 30000, 100, some 10, none⟩
      ⟨fun _ => false⟩ 10 rfl).2.2.1
      { emptyPoolState with waiting := [7], total := 1,
                            metadata := [(3, ⟨0, 0⟩)] } 3 50 7 [] ⟨0, 0⟩
      rfl rfl (by decide) (by decide) rfl
  simpa [emptyPoolState] using h

/-- C8: an `acquire()` on an open pool whose idle scan comes up empty
(`exhausted`) while the pool is at capacity fails immediately with the
queue-full error when `maxWaitingRequests` waiters are already queued —
it is never enqueued as an extra waiter and the queue is left untouched —
and is enqueued as a waiter (instead of failing) when fewer are queued. -/
theorem acquire_queue_full_backpressure (opts : PoolOptions) (env : PoolEnv)
    (st : PoolState) (now : Int) (wid : Nat) (st1 : PoolState)
    (hclosed : st.closed = false)
    (hscan : acquireScan opts env now st.idle st = (.exhausted, st1))
    (hcap : (opts.size : Int) ≤ st1.total) :
    st1.waiting = st.waiting ∧
    (opts.maxWaitingRequests ≤ st.waiting.length →
      acquireSync opts env st now wid = (.threwQueueFull, st1)) ∧
    (st.waiting.length < opts.maxWaitingRequests →
      acquireSync opts env st now wid
        = (.enqueued, { st1 with waiting := st1.waiting ++ [wid] })) := by
  have hwait : st1.waiting = st.waiting := by
    have := acquireScan_waiting opts env now st.idle st
    rw [hscan] at this
    exact this
  refine ⟨hwait, ?_, ?_⟩
  · intro hq
    unfold acquireSync
    rw [hclosed]
    simp only [Bool.false_eq_true, if_false]
    rw [hscan]
    simp only []
    rw [if_neg (by omega), if_pos (by rw [hwait]; exact hq)]
  · intro hq
    unfold acquireSync
    rw [hclosed]
    simp only [Bool.false_eq_true, if_false]
    rw [hscan]
    simp only []
    rw [if_neg (by omega), if_neg (by rw [hwait]; omega)]

/-- Witness for `acquire_queue_full_backpressure`: size-1 pool at
capacity with `maxWaitingRequests = 1` and one waiter already queued
rejects the next acquire with the queue-full error. -/
theorem acquire_queue_full_backpressure_witness :
    acquireSync ⟨1, 30000, 1, none, none⟩ ⟨fun _ => false⟩
        { emptyPoolState with total := 1, waiting := [4] } 0 9
      = (.threwQueueFull, { emptyPoolState with total := 1, waiting := [4] }) := by
  have h := (acquire_queue_full_backpressure ⟨1, 30000, 1, none, none⟩
      ⟨fun _ => false⟩ { emptyPoolState with total := 1, waiting := [4] } 0 9
      { emptyPoolState with total := 1, waiting := [4] } rfl rfl
      (by decide)).2.1 (by decide)
  exact h

inductive ReleaseFinal where
  | handedToWaiter (w c : Nat)
  | waiterRejected (w : Nat)
  | waiterGotReplacement (w c : Nat)
  | waiterReplacementFailed (w : Nat)
  | waiterReplacementPending (w : Nat)
  | discarded
  | returnedToIdle
deriving DecidableEq

/-- The whole of `release(connection)` as observed by its caller.  The
recursive `acquire()` of the expired-with-waiter path is inlined here
(`wid` is the timeout id it would use; `newConn`/`res` the outcome of
the connection creation it may start); its success resolves the waiter
and its failure rejects the waiter, and both are inside `try`/`catch`,
so only the `await closeClientConnection(connection)` calls — which
`release` does not guard — can surface an error (`Except.error`) to the
caller of `release`. -/
def releaseObservable (opts : PoolOptions) (env : PoolEnv) (st : PoolState)
    (c : Nat) (now : Int) (wid : Nat) (newConn : Nat) (res : CreateResult) :
    Except Unit (ReleaseFinal × PoolState) :=
  match releaseStep opts env st c now with
  | (.threwDestroy, _) => .error ()
  | (.waiterRejectedClosed w, st1) => .ok (.waiterRejected w, st1)
  | (.waiterResolved w conn, st1) => .ok (.handedToWaiter w conn, st1)
  | (.destroyedPoolClosed, st1) => .ok (.discarded, st1)
  | (.destroyedExpired, st1) => .ok (.discarded, st1)
  | (.pushedIdle, st1) => .ok (.returnedToIdle, st1)
  | (.waiterRecursiveAcquire w, st1) =>
    match acquireSync opts env st1 now wid with
    | (.gotIdle conn, st2) => .ok (.waiterGotReplacement w conn, st2)
    | (.startCreation, st2) =>
      match createDone env st2 now newConn res with
      | (.created conn, st3) => .ok (.waiterGotReplacement w conn, st3)
      | (_, st3) => .ok (.waiterReplacementFailed w, st3)
    | (.enqueued, st2) => .ok (.waiterReplacementPending w, st2)
    | (.threwClosed, st2) => .ok (.waiterReplacementFailed w, st2)
    | (.threwQueueFull, st2) => .ok (.waiterReplacementFailed w, st2)
    | (.threwDestroy, st2) => .ok (.waiterReplacementFailed w, st2)

theorem releaseStep_threwDestroy_only_if_closeThrows (opts : PoolOptions)
    (env : PoolEnv) (st : PoolState) (c : Nat) (now : Int)
    (h : env.closeThrows c = false) :
    (releaseStep opts env st c now).1 ≠ .threwDestroy := by
  unfold releaseStep
  rcases hw : st.waiting with _ | ⟨w, ws⟩
  · by_cases hc : st.closed
    · simp [hc, closeConn, h]
    · simp only [hc, Bool.false_eq_true, if_false]
      split
      · simp [closeConn, h]
      · simp
  · simp only []
    by_cases hc : st.closed
    · simp [hc, closeConn, h]
    · simp only [hc, Bool.false_eq_true, if_false]
      split
      · simp [closeConn, h]
      · simp

/-- C7 counterexample: releasing a connection to a closed pool when the
connection's own `close()` rejects makes `release()` itself reject —
the `await closeClientConnection(connection)` calls inside `release`
are not wrapped in any `try`/`catch`, so a destroy failure is observable
to the caller, contradicting the claim that `release` never fails
observably regardless of destroy failures. -/
theorem release_destroy_failure_observable :
    releaseObservable ⟨4, 30000, 100, none, none⟩ ⟨fun _ => true⟩
        { emptyPoolState with closed := true, total := 1 } 3 0 0 0 .ok
      = .error () := rfl

/-- C7 (amended): `release(connection)` never fails observably to the
caller — it hands the connection to the oldest waiter, destroys it
(expired or pool closed), satisfies the waiter via the guarded recursive
`acquire()`, or pushes it onto the idle stack — provided destroying that
connection does not itself reject; prepared-statement-cache destroy
failures are swallowed inside `closeClientConnection`, but a rejection
of the connection's own `close()` propagates out of `release`. -/
theorem release_never_fails_observably (opts : PoolOptions) (env : PoolEnv)
    (st : PoolState) (c : Nat) (now : Int) (wid : Nat) (newConn : Nat)
    (res : CreateResult) (h : env.closeThrows c = false) :
    ∃ out st1, releaseObservable opts env st c now wid newConn res
      = .ok (out, st1) := by
  unfold releaseObservable
  rcases hr : releaseStep opts env st c now with ⟨out, st1⟩
  cases out with
  | threwDestroy =>
    have := releaseStep_threwDestroy_only_if_closeThrows opts env st c now h
    rw [hr] at this
    exact absurd rfl this
  | waiterRejectedClosed w => exact ⟨_, _, rfl⟩
  | waiterResolved w conn => exact ⟨_, _, rfl⟩
  | destroyedPoolClosed => exact ⟨_, _, rfl⟩
  | destroyedExpired => exact ⟨_, _, rfl⟩
  | pushedIdle => exact ⟨_, _, rfl⟩
  | waiterRecursiveAcquire w =>
    rcases ha : acquireSync opts env st1 now wid with ⟨step, st2⟩
    cases step with
    | gotIdle conn =>
      exact ⟨.waiterGotReplacement w conn, st2, by simp only [ha]⟩
    | startCreation =>
      rcases hc : createDone env st2 now newConn res with ⟨cout, st3⟩
      cases cout with
      | created conn2 =>
        exact ⟨.waiterGotReplacement w conn2, st3, by simp only [ha, hc]⟩
      | threwError =>
        exact ⟨.waiterReplacementFailed w, st3, by simp only [ha, hc]⟩
      | threwClosed =>
        exact ⟨.waiterReplacementFailed w, st3, by simp only [ha, hc]⟩
    | enqueued =>
      exact ⟨.waiterReplacementPending w, st2, by simp only [ha]⟩
    | threwClosed =>
      exact ⟨.waiterReplacementFailed w, st2, by simp only [ha]⟩
    | threwQueueFull =>
      exact ⟨.waiterReplacementFailed w, st2, by simp only [ha]⟩
    | threwDestroy =>
      exact ⟨.waiterReplacementFailed w, st2, by simp only [ha]⟩

/-- Witness for `release_never_fails_observably`: releasing a live
connection into an empty open pool returns it to the idle stack. -/
theorem release_never_fails_observably_witness :
    ∃ out st1,
      releaseObservable ⟨4, 30000, 100, none, none⟩ ⟨fun _ => false⟩
          { emptyPoolState with total := 1, metadata := [(3, ⟨0, 0⟩)] }
          3 5 0 0 .ok
        = .ok (out, st1) :=
  release_never_fails_observably ⟨4, 30000, 100, none, none⟩ ⟨fun _ => false⟩
    { emptyPoolState with total := 1, metadata := [(3, ⟨0, 0⟩)] }
    3 5 0 0 .ok rfl

/-- C10 counterexample: with `maxLifetimeMs = 0` a foreign release —
a connection the pool holds no metadata for — fabricates metadata with
`createdAt = now`, and `now - now >= 0` makes it immediately *expired*:
it is destroyed (not pushed onto the idle stack or handed to a waiter)
and `total` is decremented from 5 to 4, so it is judged expired at that
moment and `total` does not stay unchanged, contrary to the claim. -/
theorem release_foreign_zero_lifetime_expired :
    releaseStep ⟨4, 30000, 100, some 0, none⟩ ⟨fun _ => false⟩
        { emptyPoolState with total := 5 } 9 100
      = (.destroyedExpired, { emptyPoolState with total := 4, destroyed := [9] })
    ∧ (releaseStep ⟨4, 30000, 100, some 0, none⟩ ⟨fun _ => false⟩
        { emptyPoolState with total := 5 } 9 100).2.total ≠ 5 := by
  constructor
  · rfl
  · decide

/-- C10 (amended): when `maxLifetimeMs` is unset or positive, releasing
a connection the pool holds no metadata for fabricates metadata with
`createdAt = lastUsedAt = now` — so it is not judged expired at that
moment — and the connection is handed to the first queued waiter, or
pushed onto the idle stack, in both cases without `total` changing
(foreign releases can therefore grow the idle stack while `total` stays
unchanged). -/
theorem release_foreign_fabricates_metadata (opts : PoolOptions)
    (env : PoolEnv) (st : PoolState) (c : Nat) (now : Int)
    (hmeta : mdGet st.metadata c = none)
    (hclosed : st.closed = false)
    (hlife : ∀ m, opts.maxLifetimeMs = some m → 0 < m) :
    (∀ w ws, st.waiting = w :: ws →
      releaseStep opts env st c now
        = (.waiterResolved w c,
           { st with waiting := ws,
                     metadata := mdSet st.metadata c ⟨now, now⟩ })) ∧
    (st.waiting = [] →
      releaseStep opts env st c now
        = (.pushedIdle,
           { st with metadata := mdSet st.metadata c ⟨now, now⟩,
                     idle := ⟨c, now, now⟩ :: st.idle })) := by
  have hexp : ∀ mOpt : Option Int, mOpt = opts.maxLifetimeMs →
      (match mOpt with
       | some m => decide (now - now ≥ m)
       | none => false) = false := by
    intro mOpt hmo
    match mOpt with
    | none => rfl
    | some m =>
      have := hlife m hmo.symm
      simp only [decide_eq_false_iff_not]
      omega
  constructor
  · intro w ws hw
    unfold releaseStep
    rw [hw]
    simp only [hmeta, Option.getD_none, hclosed, Bool.false_eq_true, if_false,
      hexp opts.maxLifetimeMs rfl]
  · intro hw
    unfold releaseStep
    rw [hw]
    simp only [hmeta, Option.getD_none, hclosed, Bool.false_eq_true, if_false,
      hexp opts.maxLifetimeMs rfl]

/-- Witness for `release_foreign_fabricates_metadata`: a foreign release
into an open pool with `maxLifetimeMs = 1000` and no waiter pushes the
connection onto the idle stack with fabricated metadata. -/
theorem release_foreign_fabricates_metadata_witness :
    releaseStep ⟨4, 30000, 100, some 1000, none⟩ ⟨fun _ => false⟩
        { emptyPoolState with total := 2 } 9 100
      = (.pushedIdle,
         { emptyPoolState with total := 2,
                               metadata := [(9, ⟨100, 100⟩)],
                               idle := [⟨9, 100, 100⟩] }) := by
  have h := (release_foreign_fabricates_metadata ⟨4, 30000, 100, some 1000, none⟩
      ⟨fun _ => false⟩ { emptyPoolState with total := 2 } 9 100
      rfl rfl (by intro m hm; cases hm; decide)).2 rfl
  simpa [emptyPoolState, mdSet, mdDelete] using h

/-! ## Session transaction coordinator
(src/bin/duckdb-introspect.ts, DuckDBSession.transaction /
DuckDBTransaction.getTransactionConfigSQL) -/

/-- A JS value passed as the `deferrable` flag (`typeof` boolean or not). -/
inductive JsValue where
  | boolean (b : Bool)
  | other (s : String)
deriving DecidableEq

def jsValueToString : JsValue → String
  | .boolean b => if b then "true" else "false"
  | .other s => s

structure TxConfig where
  isolationLevel : Option String
  accessMode : Option String
  deferrable : Option JsValue
deriving DecidableEq

def VALID_TRANSACTION_ISOLATION_LEVELS : List String :=
  ["read uncommitted", "read committed", "repeatable read", "serializable"]

def VALID_TRANSACTION_ACCESS_MODES : List String :=
  ["read only", "read write"]

/-- JS truthiness of an optional string (absent or empty string is falsy,
as in `config.isolationLevel && ...`). -/
def strTruthy : Option String → Bool
  | some s => s != ""
  | none => false

/-- `DuckDBTransaction.getTransactionConfigSQL` (lines 895-940): validate
each supplied value against the fixed allow-lists, throwing a
descriptive error on the first invalid one, then build the raw SQL
fragment from the accepted values. -/
def getTransactionConfigSQL (config : TxConfig) : Except String String :=
  if strTruthy config.isolationLevel &&
      !(VALID_TRANSACTION_ISOLATION_LEVELS.contains
        (config.isolationLevel.getD "")) then
    .error ("Invalid transaction isolation level \"" ++
      config.isolationLevel.getD "" ++ "\". Expected one of: " ++
      String.intercalate ", " VALID_TRANSACTION_ISOLATION_LEVELS ++ ".")
  else if strTruthy config.accessMode &&
      !(VALID_TRANSACTION_ACCESS_MODES.contains (config.accessMode.getD "")) then
    .error ("Invalid transaction access mode \"" ++
      config.accessMode.getD "" ++ "\". Expected one of: " ++
      String.intercalate ", " VALID_TRANSACTION_ACCESS_MODES ++ ".")
  else if (match config.deferrable with
           | some (.other _) => true
           | _ => false) then
    .error ("Invalid transaction deferrable flag \"" ++
      jsValueToString (config.deferrable.getD (.boolean false)) ++
      "\". Expected a boolean.")
  else
    let chunks :=
      (if strTruthy config.isolationLevel then
        ["isolation level " ++ config.isolationLevel.getD ""] else []) ++
      (if strTruthy config.accessMode then [config.accessMode.getD ""] else []) ++
      (match config.deferrable with
       | some (.boolean b) => [if b then "deferrable" else "not deferrable"]
       | _ => [])
    .ok (String.intercalate " " chunks)

/-- The disjunction of the three validity checks: the config carries an
isolation level outside the allow-list, an access mode outside the
allow-list, or a non-boolean deferrable flag (truthiness included, as
the source skips validation of falsy strings). -/
def invalidTxConfig (cfg : TxConfig) : Bool :=
  (strTruthy cfg.isolationLevel &&
    !(VALID_TRANSACTION_ISOLATION_LEVELS.contains (cfg.isolationLevel.getD ""))) ||
  (strTruthy cfg.accessMode &&
    !(VALID_TRANSACTION_ACCESS_MODES.contains (cfg.accessMode.getD ""))) ||
  (match cfg.deferrable with
   | some (.other _) => true
   | _ => false)

inductive TxOutcome (T : Type) where
  | ok (v : T)
  | validationError (msg : String)
  | rolledBack
  | callbackError (e : String)
deriving DecidableEq

/-- The user callback, abstracted: what it returns (or throws) and
whether it marked the session rollback-only along the way. -/
structure CallbackSpec (T : Type) where
  result : Except String T
  marksRollbackOnly : Bool

/-- Observable run of one `DuckDBSession.transaction` call: outcome, SQL
statements issued to the engine in order, and pool acquire/release
counts. -/
structure TxRun (T : Type) where
  outcome : TxOutcome T
  stmts : List String
  acquires : Nat
  releases : Nat
deriving DecidableEq

/-- `DuckDBSession.transaction` (lines 739-790).  When the client is a
pool, one connection is acquired, pinned for the whole transaction and
released exactly once in the `finally`.  `BEGIN TRANSACTION;` is issued
first; only then, if a config was given, does `setTransaction` evaluate
`getTransactionConfigSQL(config)` — a validation failure there escapes
the outer `try` (the inner `try`/`catch` around the callback is not yet
entered), so no `rollback` is issued for it.  Otherwise
`set transaction <fragment>` is issued and the callback runs: a throw
triggers `rollback` and re-throws; a normal return with the session
marked rollback-only triggers `rollback` followed by a
`TransactionRollbackError` thrown *inside* the inner `try` (line 777),
which the inner `catch` (line 781) then catches, issuing `rollback` a
second time before re-throwing it; otherwise `commit` and the result.
The engine is modelled as accepting the control statements (BEGIN /
commit / rollback / set transaction) themselves. -/
def sessionTransaction (T : Type) (isPoolClient : Bool)
    (config : Option TxConfig) (cb : CallbackSpec T) : TxRun T :=
  let acq : Nat := if isPoolClient then 1 else 0
  let runBody : List String → TxRun T := fun setStmts =>
    match cb.result with
    | .error e =>
      { outcome := .callbackError e,
        stmts := ["BEGIN TRANSACTION;"] ++ setStmts ++ ["rollback"],
        acquires := acq, releases := acq }
    | .ok v =>
      if cb.marksRollbackOnly then
        { outcome := .rolledBack,
          stmts := ["BEGIN TRANSACTION;"] ++ setStmts ++ ["rollback", "rollback"],
          acquires := acq, releases := acq }
      else
        { outcome := .ok v,
          stmts := ["BEGIN TRANSACTION;"] ++ setStmts ++ ["commit"],
          acquires := acq, releases := acq }
  match config with
  | none => runBody []
  | some cfg =>
    match getTransactionConfigSQL cfg with
    | .error msg =>
      { outcome := .validationError msg,
        stmts := ["BEGIN TRANSACTION;"],
        acquires := acq, releases := acq }
    | .ok frag => runBody ["set transaction " ++ frag]

/-- C3 counterexample: a transaction config with an invalid isolation
level (containing a statement terminator) is rejected with the
descriptive validation error, but only *after* `BEGIN TRANSACTION;` has
already been issued to the engine — `tx.execute(sql BEGIN TRANSACTION)`
at line 767 precedes `tx.setTransaction(config)` at line 770 — so the
claim that no SQL, including BEGIN, reaches the engine before the
invalid value is rejected is false. -/
theorem transaction_invalid_config_after_begin :
    sessionTransaction Unit false
        (some { isolationLevel := some "read committed; drop table users",
                accessMode := none, deferrable := none })
        { result := .ok (), marksRollbackOnly := false }
      = { outcome := .validationError
            "Invalid transaction isolation level \"read committed; drop table users\". Expected one of: read uncommitted, read committed, repeatable read, serializable.",
          stmts := ["BEGIN TRANSACTION;"], acquires := 0, releases := 0 } ∧
    (sessionTransaction Unit false
        (some { isolationLevel := some "read committed; drop table users",
                accessMode := none, deferrable := none })
        { result := .ok (), marksRollbackOnly := false }).stmts ≠ [] := by
  constructor
  · rfl
  · decide

theorem invalidTxConfig_errors (cfg : TxConfig)
    (h : invalidTxConfig cfg = true) :
    ∃ msg, getTransactionConfigSQL cfg = .error msg := by
  unfold invalidTxConfig at h
  by_cases h1 : (strTruthy cfg.isolationLevel &&
      !(VALID_TRANSACTION_ISOLATION_LEVELS.contains
        (cfg.isolationLevel.getD ""))) = true
  · exact ⟨_, by unfold getTransactionConfigSQL; rw [if_pos h1]⟩
  · by_cases h2 : (strTruthy cfg.accessMode &&
        !(VALID_TRANSACTION_ACCESS_MODES.contains (cfg.accessMode.getD ""))) = true
    · exact ⟨_, by unfold getTransactionConfigSQL; rw [if_neg h1, if_pos h2]⟩
    · have h3 : (match cfg.deferrable with
          | some (.other _) => true
          | _ => false) = true := by
        rw [Bool.or_eq_true, Bool.or_eq_true] at h
        rcases h with (h | h) | h
        · exact absurd h h1
        · exact absurd h h2
        · exact h
      exact ⟨_, by unfold getTransactionConfigSQL; rw [if_neg h1, if_neg h2, if_pos h3]⟩

/-- C3 (amended): a transaction config carrying an isolation level
outside the allow-list (and truthy), an access mode outside the
allow-list (and truthy), or a non-boolean deferrable flag makes the call
fail with the descriptive validation error from
`getTransactionConfigSQL` before the invalid value is spliced into any
SQL: the only statement that reaches the engine before the rejection is
the constant `BEGIN TRANSACTION;` (no `set transaction` text, no
rollback, and nothing containing the invalid value is ever issued). -/
theorem transaction_invalid_config_rejected (T : Type) (isPool : Bool)
    (cfg : TxConfig) (cb : CallbackSpec T)
    (hinv : invalidTxConfig cfg = true) :
    ∃ msg, getTransactionConfigSQL cfg = .error msg ∧
      sessionTransaction T isPool (some cfg) cb
        = { outcome := .validationError msg,
            stmts := ["BEGIN TRANSACTION;"],
            acquires := if isPool then 1 else 0,
            releases := if isPool then 1 else 0 } := by
  obtain ⟨msg, herr⟩ := invalidTxConfig_errors cfg hinv
  refine ⟨msg, herr, ?_⟩
  unfold sessionTransaction
  simp only [herr]

/-- Witness for `transaction_invalid_config_rejected`: an invalid access
mode is rejected with only BEGIN issued. -/
theorem transaction_invalid_config_rejected_witness :
    ∃ msg, getTransactionConfigSQL
        { isolationLevel := none, accessMode := some "read only; attach db",
          deferrable := none } = .error msg ∧
      sessionTransaction Unit true
          (some { isolationLevel := none,
                  accessMode := some "read only; attach db",
                  deferrable := none })
          { result := .ok (), marksRollbackOnly := false }
        = { outcome := .validationError msg,
            stmts := ["BEGIN TRANSACTION;"],
            acquires := if true then 1 else 0,
            releases := if true then 1 else 0 } :=
  transaction_invalid_config_rejected Unit true
    { isolationLevel := none, accessMode := some "read only; attach db",
      deferrable := none }
    { result := .ok (), marksRollbackOnly := false } (by decide)

/-- C4: for a top-level `transaction(callback)` (no config): a callback
that resolves normally without marking the session rollback-only leads
to `commit` and its value is returned; a callback that resolves normally
but marked rollback-only leads to `rollback` and a
`TransactionRollbackError` instead of the value — and because that error
is thrown inside the inner `try`, its own `catch` issues `rollback` a
second time before re-throwing it; a callback that throws leads to
`rollback` and the original error re-thrown.  In each case the pinned
pool connection is released exactly once. -/
theorem transaction_commit_rollback_semantics (T : Type) (isPool : Bool)
    (v : T) (e : String) (marks : Bool) :
    (sessionTransaction T isPool none { result := .ok v, marksRollbackOnly := false }
      = { outcome := .ok v, stmts := ["BEGIN TRANSACTION;", "commit"],
          acquires := if isPool then 1 else 0,
          releases := if isPool then 1 else 0 }) ∧
    (sessionTransaction T isPool none { result := .ok v, marksRollbackOnly := true }
      = { outcome := .rolledBack,
          stmts := ["BEGIN TRANSACTION;", "rollback", "rollback"],
          acquires := if isPool then 1 else 0,
          releases := if isPool then 1 else 0 }) ∧
    (sessionTransaction T isPool none { result := .error e, marksRollbackOnly := marks }
      = { outcome := .callbackError e, stmts := ["BEGIN TRANSACTION;", "rollback"],
          acquires := if isPool then 1 else 0,
          releases := if isPool then 1 else 0 }) := by
  cases isPool <;> exact ⟨rfl, rfl, rfl⟩

/-! ## Nested transactions and the savepoint capability probe
(src/bin/duckdb-introspect.ts, DuckDBTransaction.transaction /
isSavepointSyntaxError) -/

inductive SavepointCap where
  | unknown
  | supported
  | unsupported
deriving DecidableEq

/-- Modelled from the spec: the `DuckDBDialect` savepoint-capability
accessors (`areSavepointsUnsupported`, `markSavepointsSupported`,
`markSavepointsUnsupported`) live in src/dialect.ts, which is not among
the provided sources — only their call sites in
`DuckDBTransaction.transaction` are.  Per the spec the capability is a
per-dialect-instance tri-state flag `{unknown, supported, unsupported}`. -/
structure DialectState where
  savepointCap : SavepointCap
deriving DecidableEq

def areSavepointsUnsupported (d : DialectState) : Bool :=
  d.savepointCap == .unsupported

def markSavepointsSupported (_d : DialectState) : DialectState :=
  { savepointCap := .supported }

def markSavepointsUnsupported (_d : DialectState) : DialectState :=
  { savepointCap := .unsupported }

/-- ASCII case folding of `String.prototype.toLowerCase` (every message
involved is ASCII). -/
def charLower (c : Char) : Char :=
  if 'A' ≤ c ∧ c ≤ 'Z' then Char.ofNat (c.toNat + 32) else c

def listIsPrefixOf : List Char → List Char → Bool
  | [], _ => true
  | _ :: _, [] => false
  | a :: as, b :: bs => a == b && listIsPrefixOf as bs

def listContainsSub (pat : List Char) : List Char → Bool
  | [] => pat.isEmpty
  | c :: rest => listIsPrefixOf pat (c :: rest) || listContainsSub pat rest

/-- `s.includes(pat)` on JS strings. -/
def containsSubstr (s pat : String) : Bool :=
  listContainsSub pat.data s.data

/-- `message.toLowerCase()` over the ASCII alphabet. -/
def lowercase (s : String) : String :=
  String.mk (s.data.map charLower)

/-- `isSavepointSyntaxError` (lines 570-578): a real `Error` with a
non-empty message whose lowercased text contains both "savepoint" and
"syntax error". -/
def isSavepointSyntaxError (isError : Bool) (message : String) : Bool :=
  if !isError || message == "" then false
  else
    containsSubstr (lowercase message) "savepoint" &&
    containsSubstr (lowercase message) "syntax error"

/-- The parser error an engine without savepoint support raises for the
`SAVEPOINT` statement (DuckDB's own wording), recognized by
`isSavepointSyntaxError`. -/
def savepointUnsupportedMessage : String :=
  "Parser Error: syntax error at or near \"SAVEPOINT\""

/-- Result of one nested-transaction attempt: the callback's result (or
the propagated savepoint error), the dialect state afterwards, the SQL
issued, and whether the outer session was marked rollback-only. -/
structure NestedRun (T : Type) where
  result : Except String T
  dialect : DialectState
  stmts : List String
  markedRollbackOnly : Bool

/-- `runNestedWithoutSavepoint` (lines 1027-1038): run the nested
callback directly against the active transaction; on failure mark the
outer session rollback-only and propagate. -/
def runNestedWithoutSavepoint (T : Type) (cb : Except String T)
    (d : DialectState) : NestedRun T :=
  match cb with
  | .ok v =>
    { result := .ok v, dialect := d, stmts := [], markedRollbackOnly := false }
  | .error e =>
    { result := .error e, dialect := d, stmts := [], markedRollbackOnly := true }

/-- `DuckDBTransaction.transaction` (nested; lines 974-1025).
`engineSupports` is the engine's fixed behaviour for `SAVEPOINT`: when
it rejects, the raised error carries `savepointUnsupportedMessage`.
If the capability flag is already `unsupported` the savepoint protocol
is skipped entirely; otherwise the `SAVEPOINT` statement is issued: on
success the flag is marked supported and release / rollback-to follow
the callback's outcome; on a recognized savepoint syntax error the flag
is marked unsupported and the run falls back to the direct path; an
unrecognized error is re-thrown with the flag untouched. -/
def nestedTransaction (T : Type) (engineSupports : Bool) (d : DialectState)
    (nestedIndex : Nat) (cb : Except String T) : NestedRun T :=
  let savepoint := "drizzle_savepoint_" ++ toString (nestedIndex + 1)
  if areSavepointsUnsupported d then
    runNestedWithoutSavepoint T cb d
  else if engineSupports then
    let d1 := markSavepointsSupported d
    match cb with
    | .ok v =>
      { result := .ok v, dialect := d1,
        stmts := ["savepoint " ++ savepoint, "release savepoint " ++ savepoint],
        markedRollbackOnly := false }
    | .error e =>
      { result := .error e, dialect := d1,
        stmts := ["savepoint " ++ savepoint, "rollback to savepoint " ++ savepoint],
        markedRollbackOnly := true }
  else if isSavepointSyntaxError true savepointUnsupportedMessage then
    let r := runNestedWithoutSavepoint T cb (markSavepointsUnsupported d)
    { r with stmts := ["savepoint " ++ savepoint] ++ r.stmts }
  else
    { result := .error savepointUnsupportedMessage, dialect := d,
      stmts := ["savepoint " ++ savepoint], markedRollbackOnly := false }

/-- A sequence of sibling nested-transaction attempts on the same
dialect instance, each threading the dialect state left by the previous
one. -/
def nestedMany (T : Type) (engineSupports : Bool) :
    DialectState → List (Except String T) → List (NestedRun T)
  | _, [] => []
  | d, cb :: rest =>
    let r := nestedTransaction T engineSupports d 0 cb
    r :: nestedMany T engineSupports r.dialect rest

theorem savepoint_error_recognized :
    isSavepointSyntaxError true savepointUnsupportedMessage = true := by decide

theorem nestedTransaction_dialect_decided (T : Type) (engineSupports : Bool)
    (d : DialectState) (n : Nat) (cb : Except String T)
    (h : d = ⟨.unknown⟩ ∨
         d = ⟨if engineSupports then SavepointCap.supported else .unsupported⟩) :
    (nestedTransaction T engineSupports d n cb).dialect
      = ⟨if engineSupports then SavepointCap.supported else .unsupported⟩ := by
  cases engineSupports with
  | false =>
    simp only [Bool.false_eq_true, if_false] at h ⊢
    rcases h with rfl | rfl
    · cases cb <;>
        simp [nestedTransaction, areSavepointsUnsupported,
          savepoint_error_recognized, runNestedWithoutSavepoint,
          markSavepointsUnsupported]
    · cases cb <;>
        simp [nestedTransaction, areSavepointsUnsupported,
          runNestedWithoutSavepoint]
  | true =>
    simp only [if_true] at h ⊢
    rcases h with rfl | rfl
    · cases cb <;>
        simp [nestedTransaction, areSavepointsUnsupported,
          markSavepointsSupported]
    · cases cb <;>
        simp [nestedTransaction, areSavepointsUnsupported,
          markSavepointsSupported]

theorem nestedMany_dialect_decided (T : Type) (engineSupports : Bool) :
    ∀ (cbs : List (Except String T)) (d : DialectState),
      (d = ⟨.unknown⟩ ∨
       d = ⟨if engineSupports then SavepointCap.supported else .unsupported⟩) →
      ∀ r ∈ nestedMany T engineSupports d cbs,
        r.dialect
          = ⟨if engineSupports then SavepointCap.supported else .unsupported⟩ := by
  intro cbs
  induction cbs with
  | nil =>
    intro d _ r hr
    simp [nestedMany] at hr
  | cons cb rest ih =>
    intro d hd r hr
    simp only [nestedMany, List.mem_cons] at hr
    rcases hr with rfl | hr
    · exact nestedTransaction_dialect_decided T engineSupports d 0 cb hd
    · exact ih _ (Or.inr (nestedTransaction_dialect_decided T engineSupports d 0 cb hd)) r hr

/-- C5: the savepoint capability flag is tri-state `{unknown, supported,
unsupported}`; starting from `unknown`, the first nested-transaction
attempt decides it (supported when the engine accepts `SAVEPOINT`,
unsupported when the probe fails with the recognized savepoint syntax
error), and every attempt in the sequence leaves the flag at that
decided value — so it is mutated only by the first attempt.  Once the
flag is `unsupported` it is permanent: every later nested transaction on
that dialect instance equals `runNestedWithoutSavepoint` — it issues no
SQL at all (no `SAVEPOINT` probe) and runs the nested callback directly
against the active transaction, leaving the flag `unsupported`. -/
theorem savepoint_capability_probe (T : Type) (engineSupports : Bool) :
    (∀ (cbs : List (Except String T)),
      ∀ r ∈ nestedMany T engineSupports ⟨.unknown⟩ cbs,
        r.dialect
          = ⟨if engineSupports then SavepointCap.supported else .unsupported⟩) ∧
    (∀ (d : DialectState) (n : Nat) (cb : Except String T),
      areSavepointsUnsupported d = true →
      nestedTransaction T engineSupports d n cb
        = runNestedWithoutSavepoint T cb d ∧
      (nestedTransaction T engineSupports d n cb).stmts = [] ∧
      (nestedTransaction T engineSupports d n cb).dialect = d) := by
  constructor
  · intro cbs
    exact nestedMany_dialect_decided T engineSupports cbs ⟨.unknown⟩ (Or.inl rfl)
  · intro d n cb hd
    have h1 : nestedTransaction T engineSupports d n cb
        = runNestedWithoutSavepoint T cb d := by
      unfold nestedTransaction
      rw [if_pos hd]
    refine ⟨h1, ?_, ?_⟩
    · rw [h1]
      cases cb <;> rfl
    · rw [h1]
      cases cb <;> rfl

/-- Witness for `savepoint_capability_probe`: on a dialect already
marked unsupported, a nested transaction issues no SQL and runs the
callback directly. -/
theorem savepoint_capability_probe_witness :
    nestedTransaction Unit false ⟨.unsupported⟩ 0 (.ok ())
      = runNestedWithoutSavepoint Unit (.ok ()) ⟨.unsupported⟩ ∧
    (nestedTransaction Unit false ⟨.unsupported⟩ 0 (.ok ())).stmts = [] ∧
    (nestedTransaction Unit false ⟨.unsupported⟩ 0 (.ok ())).dialect
      = ⟨.unsupported⟩ :=
  (savepoint_capability_probe Unit false).2 ⟨.unsupported⟩ 0 (.ok ()) rfl

/-! ## Streaming executor: cursor cleanup and pool release
(src/client.ts, executeInBatches / executeInBatchesRaw /
closeStreamResult)

Both generators have the shape

  pool branch:  acquire; try { yield* inner } finally { release }
  inner:        stream; try { for await ... yield ... } finally { closeStreamResult }

JS async-generator semantics run each `finally` exactly once on every
exit route — normal completion, an early `return()` injected when the
consumer stops iterating, or an exception — which the model encodes by
performing the cleanup accounting once per generator run. -/

inductive ConsumerMode where
  | exhaust
  | stopAfter (j : Nat)
  | errorAfter (j : Nat)

/-- Which cleanup methods the engine's stream result object exposes
(both are optional on `StreamResultLike`). -/
structure StreamApi where
  hasClose : Bool
  hasCancel : Bool
  closeThrows : Bool
  cancelThrows : Bool

structure BatchesRun where
  delivered : Nat
  closeCalls : Nat
  cancelCalls : Nat
  releaseCalls : Nat
  failed : Bool

/-- `closeStreamResult(result)` (lines 258-270): call `close()` when
present, otherwise `cancel()` when present, otherwise nothing; any
rejection is swallowed by the surrounding `try`/`catch`.  Returns the
number of close and cancel calls made. -/
def closeStreamResult (api : StreamApi) : Nat × Nat :=
  if api.hasClose then (1, 0)
  else if api.hasCancel then (0, 1)
  else (0, 0)

/-- The chunks the generator body can yield before its loop ends: with a
healthy engine iterator the full `yieldedChunks` (trailing buffer flush
included); when the iterator throws after `k` engine chunks, only the
full buffers accumulated so far (the flush after the loop is skipped by
the exception). -/
def availableChunks (P : Nat) (chunks : List (List α)) :
    Option Nat → List (List α)
  | none => yieldedChunks P chunks
  | some k => (feedChunks P ([], []) (chunks.take k)).1

/-- One run of the non-pool executeInBatches / executeInBatchesRaw
generator body: `client.stream` either rejects (`streamOk = false`, no
cursor exists, nothing to clean up) or yields a cursor; the loop then
delivers chunks until the consumer stops (`stopAfter`), the consumer
throws in (`errorAfter`), the engine iterator fails, or the stream is
exhausted; and the `finally` runs `closeStreamResult` exactly once. -/
def runBatchesInner (P : Nat) (chunks : List (List α)) (streamOk : Bool)
    (api : StreamApi) (engineFailAfter : Option Nat) (mode : ConsumerMode) :
    BatchesRun :=
  if !streamOk then
    { delivered := 0, closeCalls := 0, cancelCalls := 0,
      releaseCalls := 0, failed := true }
  else
    let avail := (availableChunks P chunks engineFailAfter).length
    let delivered :=
      match mode with
      | .exhaust => avail
      | .stopAfter j => min j avail
      | .errorAfter j => min j avail
    let failed :=
      match mode with
      | .exhaust => engineFailAfter.isSome
      | .stopAfter j => if j ≤ avail then false else engineFailAfter.isSome
      | .errorAfter j => if j < avail then true else engineFailAfter.isSome
    let cc := closeStreamResult api
    { delivered := delivered, closeCalls := cc.1, cancelCalls := cc.2,
      releaseCalls := 0, failed := failed }

/-- executeInBatches / executeInBatchesRaw (lines 408-463 / 465-520):
with a pool client one connection is acquired for the whole streamed
sequence, the non-pool generator is delegated to via `yield*` inside
`try`, and the `finally` releases that connection exactly once on every
exit route — including when `client.stream` itself rejects. -/
def runExecuteInBatches (isPool : Bool) (P : Nat) (chunks : List (List α))
    (streamOk : Bool) (api : StreamApi) (engineFailAfter : Option Nat)
    (mode : ConsumerMode) : BatchesRun :=
  let inner := runBatchesInner P chunks streamOk api engineFailAfter mode
  if isPool then
    { inner with releaseCalls := inner.releaseCalls + 1 }
  else
    inner

/-- C1: however the consumer of a streamed query finishes — exhausting
the sequence, stopping early after any number of chunks, or an error at
any point (in the engine iterator, thrown in by the consumer, or from
`client.stream` itself) — the cursor's close/cancel is invoked exactly
once whenever a cursor exists and exposes a close or cancel method, and
when the client is a pool the single pinned connection is released back
to the pool exactly once; when `client.stream` rejected no cursor exists
and no close/cancel happens, but the pool release still runs once. -/
theorem streaming_cleanup_exactly_once (α : Type) (isPool : Bool) (P : Nat)
    (chunks : List (List α)) (streamOk : Bool) (api : StreamApi)
    (engineFailAfter : Option Nat) (mode : ConsumerMode) :
    (streamOk = true → (api.hasClose || api.hasCancel) = true →
      (runExecuteInBatches isPool P chunks streamOk api engineFailAfter mode).closeCalls
        + (runExecuteInBatches isPool P chunks streamOk api engineFailAfter mode).cancelCalls
        = 1) ∧
    (isPool = true →
      (runExecuteInBatches isPool P chunks streamOk api engineFailAfter mode).releaseCalls
        = 1) ∧
    (streamOk = false →
      (runExecuteInBatches isPool P chunks streamOk api engineFailAfter mode).closeCalls = 0 ∧
      (runExecuteInBatches isPool P chunks streamOk api engineFailAfter mode).cancelCalls = 0) := by
  unfold runExecuteInBatches runBatchesInner closeStreamResult
  cases streamOk with
  | false =>
    cases isPool <;> simp
  | true =>
    cases isPool with
    | false =>
      refine ⟨?_, by simp, by simp⟩
      intro _ hapi
      by_cases hc : api.hasClose
      · simp [hc]
      · have hcc : api.hasCancel = true := by
          rcases Bool.or_eq_true_iff.1 hapi with h | h
          · exact absurd h hc
          · exact h
        simp [hc, hcc]
    | true =>
      refine ⟨?_, by simp, by simp⟩
      intro _ hapi
      by_cases hc : api.hasClose
      · simp [hc]
      · have hcc : api.hasCancel = true := by
          rcases Bool.or_eq_true_iff.1 hapi with h | h
          · exact absurd h hc
          · exact h
        simp [hc, hcc]

/-- Witness for `streaming_cleanup_exactly_once`: a pooled stream of 3
rows in chunks of 2, abandoned by the consumer after the first chunk,
closes the cursor once and releases the pooled connection once. -/
theorem streaming_cleanup_exactly_once_witness :
    (runExecuteInBatches true 2 [[1, 2, 3]] true
        ⟨true, false, false, false⟩ none (.stopAfter 1)).closeCalls
      + (runExecuteInBatches true 2 [[1, 2, 3]] true
        ⟨true, false, false, false⟩ none (.stopAfter 1)).cancelCalls = 1 ∧
    (runExecuteInBatches true 2 [[1, 2, 3]] true
        ⟨true, false, false, false⟩ none (.stopAfter 1)).releaseCalls = 1 := by
  have h := streaming_cleanup_exactly_once Nat true 2 [[1, 2, 3]] true
    ⟨true, false, false, false⟩ none (.stopAfter 1)
  exact ⟨h.1 rfl rfl, h.2.1 rfl⟩

end DrizzleDuckDB
